import Mathlib

/-!
# TinyLink link registry and redirect engine: a shallow embedding

This file embeds the core of `index.js` of the TinyLink URL shortener:
the two validation regexes (`URL_REGEX`, `CODE_REGEX`), the random code
generator `generateRandomCode`, and the five registry operations behind
the HTTP handlers (create, list, get, delete, redirect-and-count).

The durable store is modelled as a list of link records; each Prisma
call (`findUnique`, `create`, `findMany`, `delete`, `update`) is one
atomic transition on that state, matching the fact that each is a single
SQL statement against the store.  Randomness (`Math.random`,
`crypto.randomBytes`) is passed in explicitly as parameters, and clock
reads (`new Date()`) as a `now : Nat` parameter.
-/

namespace TinyLink

/-- The sole persistent entity: one row of the `Link` table.
Timestamps are modelled as naturals. -/
structure Link where
  id : Nat
  shortCode : String
  targetUrl : String
  totalClicks : Nat
  createdAt : Nat
  lastClickedAt : Option Nat
  deriving Repr, DecidableEq

/-- The durable store: the list of link rows plus the id sequence. -/
structure Db where
  links : List Link
  nextId : Nat
  deriving Repr, DecidableEq

/-- `prisma.link.findUnique({ where: { shortCode } })`. -/
def findCode (db : Db) (code : String) : Option Link :=
  db.links.find? (fun l => l.shortCode = code)

/-! ## CODE_REGEX: `/^[A-Za-z0-9]{6,8}$/` -/

/-- The character class `[A-Za-z0-9]`. -/
def isAlnumChar (c : Char) : Bool :=
  ('A' ≤ c && c ≤ 'Z') || ('a' ≤ c && c ≤ 'z') || ('0' ≤ c && c ≤ '9')

/-- Anchored matcher for `p{lo,hi}$`: consume between `lo` and `hi`
characters satisfying `p`, then require end of input. -/
def matchRep (p : Char → Bool) : Nat → Nat → List Char → Bool
  | lo, _, [] => lo == 0
  | _, 0, _ :: _ => false
  | lo, hi + 1, c :: cs => p c && matchRep p (lo - 1) hi cs

/-- `CODE_REGEX.test(s)` for `CODE_REGEX = /^[A-Za-z0-9]{6,8}$/`. -/
def codeRegexTest (s : String) : Bool :=
  matchRep isAlnumChar 6 8 s.toList

/-! ## URL_REGEX: `/^https?:\/\/[^\s$.?#].[^\s]*$/i` -/

/-- JavaScript's `\s` character class (ECMAScript WhiteSpace plus
LineTerminator). -/
def isJsSpace (c : Char) : Bool :=
  c = ' ' || c = '\t' || c = '\n' || (c = Char.ofNat 0x0b) ||
  (c = Char.ofNat 0x0c) || c = '\r' || (c = Char.ofNat 0xa0) ||
  (c = Char.ofNat 0x1680) ||
  (Char.ofNat 0x2000 ≤ c && c ≤ Char.ofNat 0x200a) ||
  (c = Char.ofNat 0x2028) || (c = Char.ofNat 0x2029) ||
  (c = Char.ofNat 0x202f) || (c = Char.ofNat 0x205f) ||
  (c = Char.ofNat 0x3000) || (c = Char.ofNat 0xfeff)

/-- JavaScript's `.` (without the `s` flag) matches everything except a
LineTerminator. -/
def isLineTerm (c : Char) : Bool :=
  c = '\n' || c = '\r' || (c = Char.ofNat 0x2028) || (c = Char.ofNat 0x2029)

/-- Consume a literal pattern case-insensitively (the regex has the `i`
flag); returns the remaining input on success. -/
def chopCI : List Char → List Char → Option (List Char)
  | [], cs => some cs
  | _ :: _, [] => none
  | p :: ps, c :: cs => if c.toLower = p.toLower then chopCI ps cs else none

/-- Match the scheme part `https?:\/\/` of `URL_REGEX` (the optional `s`
is unambiguous: a string cannot start with both `http://` and
`https://`). -/
def chopScheme (cs : List Char) : Option (List Char) :=
  match chopCI "https://".toList cs with
  | some rest => some rest
  | none => chopCI "http://".toList cs

/-- `URL_REGEX.test(s)` for
`URL_REGEX = /^https?:\/\/[^\s$.?#].[^\s]*$/i`: after the scheme, one
character not in `\s`, `$`, `.`, `?`, `#`; then any non-LineTerminator
character; then non-whitespace characters up to the end. -/
def urlRegexTest (s : String) : Bool :=
  match chopScheme s.toList with
  | none => false
  | some rest =>
    match rest with
    | c1 :: c2 :: cs =>
      !(isJsSpace c1) && !(c1 = '$') && !(c1 = '.') && !(c1 = '?') && !(c1 = '#') &&
      !(isLineTerm c2) && cs.all (fun c => !(isJsSpace c))
    | _ => false

/-! ## generateRandomCode -/

/-- The base64url alphabet: index 0–25 ↦ `A`–`Z`, 26–51 ↦ `a`–`z`,
52–61 ↦ `0`–`9`, 62 ↦ `-`, 63 ↦ `_`. -/
def b64urlChar (n : Nat) : Char :=
  if n < 26 then Char.ofNat (65 + n)
  else if n < 52 then Char.ofNat (97 + (n - 26))
  else if n < 62 then Char.ofNat (48 + (n - 52))
  else if n = 62 then '-'
  else '_'

/-- Split a byte sequence into 6-bit groups, as `base64url` encoding
does (no padding). -/
def sextets : List Nat → List Nat
  | b0 :: b1 :: b2 :: rest =>
    (b0 / 4) :: ((b0 % 4) * 16 + b1 / 16) :: ((b1 % 16) * 4 + b2 / 64) ::
      (b2 % 64) :: sextets rest
  | [b0, b1] => [b0 / 4, (b0 % 4) * 16 + b1 / 16, (b1 % 16) * 4]
  | [b0] => [b0 / 4, (b0 % 4) * 16]
  | [] => []

/-- `Buffer.toString('base64url')`. -/
def base64url (bytes : List Nat) : List Char :=
  (sextets bytes).map b64urlChar

/-- `generateRandomCode` of `index.js`.  The length draw
`Math.floor(Math.random() * 3) + 6` and the six bytes from
`crypto.randomBytes(6)` are passed in as parameters:
`.toString('base64url')`, then `.replace(/[-_]/g, '')`, then
`.slice(0, length)`. -/
def generateRandomCode (length : Nat) (bytes : List Nat) : String :=
  ⟨((base64url bytes).filter (fun c => !(c = '-') && !(c = '_'))).take length⟩

/-! ## The registry operations (the HTTP handlers of `index.js`) -/

/-- Outcome of `POST /api/links`, tagged by which response the handler
sends. -/
inductive CreateRes where
  /-- 400, `Invalid or missing targetUrl` -/
  | invalidTarget
  /-- 400, `Invalid customCode` -/
  | invalidCode
  /-- 500, `Failed to generate a unique short code` -/
  | generationExhausted
  /-- 409, `Conflict: This short code already exists` (Prisma `P2002`) -/
  | conflict
  /-- 201, `Link created successfully` with the new row -/
  | created (link : Link)
  deriving Repr, DecidableEq

/-- The HTTP status each `CreateRes` is sent with. -/
def CreateRes.status : CreateRes → Nat
  | .invalidTarget => 400
  | .invalidCode => 400
  | .generationExhausted => 500
  | .conflict => 409
  | .created _ => 201

/-- JavaScript truthiness of the destructured `customCode` field:
`undefined` and the empty string are falsy. -/
def truthy : Option String → Bool
  | none => false
  | some s => !(s = "")

/-- The `for (let i = 0; i < 5; i++)` retry loop of the auto-generation
path: the first of the candidates `gen 0, …, gen 4` that is not already
in use, in loop order.  `gen i` is the outcome of the `i`-th call to
`generateRandomCode` (its randomness made explicit). -/
def firstFree (db : Db) (gen : Nat → String) : Option String :=
  ((List.range 5).map gen).find? (fun c => (findCode db c).isNone)

/-- `prisma.link.create` wrapped in the handler's `try`/`catch`: the
store's uniqueness constraint on `shortCode` rejects a duplicate with
`P2002`, answered with 409; otherwise the row is inserted with
`totalClicks = 0` and a fresh id. -/
def insertLink (db : Db) (code targetUrl : String) (now : Nat) : CreateRes × Db :=
  match findCode db code with
  | some _ => (.conflict, db)
  | none =>
    let newLink : Link :=
      { id := db.nextId, shortCode := code, targetUrl := targetUrl,
        totalClicks := 0, createdAt := now, lastClickedAt := none }
    (.created newLink, { db with links := newLink :: db.links, nextId := db.nextId + 1 })

/-- The `POST /api/links` handler.  `customCode` is the (possibly
absent) request field, `gen` the oracle of auto-generated candidates,
`now` the clock. -/
def createLink (db : Db) (targetUrl : String) (customCode : Option String)
    (gen : Nat → String) (now : Nat) : CreateRes × Db :=
  if !(truthy (some targetUrl)) || !(urlRegexTest targetUrl) then
    (.invalidTarget, db)
  else if truthy customCode then
    if !(codeRegexTest (customCode.getD "")) then (.invalidCode, db)
    else insertLink db (customCode.getD "") targetUrl now
  else
    match firstFree db gen with
    | none => (.generationExhausted, db)
    | some code => insertLink db code targetUrl now

/-- The ordering `orderBy: { createdAt: 'desc' }`. -/
def newerFirst (a b : Link) : Prop := b.createdAt ≤ a.createdAt

instance : DecidableRel newerFirst := fun a b => Nat.decLe b.createdAt a.createdAt

instance : IsTotal Link newerFirst :=
  ⟨fun a b => Nat.le_total b.createdAt a.createdAt⟩

instance : IsTrans Link newerFirst :=
  ⟨fun _ _ _ hab hbc => Nat.le_trans hbc hab⟩

/-- The `GET /api/links` handler: `findMany` ordered by `createdAt`
descending. -/
def listLinks (db : Db) : List Link :=
  List.insertionSort newerFirst db.links

/-- The `GET /api/links/:code` handler: 200 with the row, or 404. -/
def getLink (db : Db) (code : String) : Option Link :=
  findCode db code

/-- Outcome of `DELETE /api/links/:code`. -/
inductive DeleteRes where
  /-- 204 No Content -/
  | deleted
  /-- 404, Prisma `P2025` -/
  | notFound
  deriving Repr, DecidableEq

/-- The HTTP status each `DeleteRes` is sent with. -/
def DeleteRes.status : DeleteRes → Nat
  | .deleted => 204
  | .notFound => 404

/-- The `DELETE /api/links/:code` handler: `prisma.link.delete` throws
`P2025` when no row matches, answered with 404. -/
def deleteLink (db : Db) (code : String) : DeleteRes × Db :=
  match findCode db code with
  | none => (.notFound, db)
  | some _ =>
    (.deleted, { db with links := db.links.filter (fun l => !(l.shortCode = code)) })

/-- Outcome of the redirect route `GET /:code`. -/
inductive RedirectRes where
  /-- 302 with the `Location` header -/
  | found (location : String)
  /-- 404, Prisma `P2025` -/
  | notFound
  deriving Repr, DecidableEq

/-- The HTTP status each `RedirectRes` is sent with. -/
def RedirectRes.status : RedirectRes → Nat
  | .found _ => 302
  | .notFound => 404

/-- The single-row update applied by `prisma.link.update`:
`totalClicks: { increment: 1 }, lastClickedAt: new Date()`. -/
def bumpClick (now : Nat) (l : Link) : Link :=
  { l with totalClicks := l.totalClicks + 1, lastClickedAt := some now }

/-- The `GET /:code` redirect handler: one atomic `prisma.link.update`
keyed by `shortCode` that increments the counter and sets the
timestamp, then a 302 to the updated row's `targetUrl`; `P2025` (no row
matched) is answered with 404 and no write happens. -/
def redirectLink (db : Db) (code : String) (now : Nat) : RedirectRes × Db :=
  match findCode db code with
  | none => (.notFound, db)
  | some l =>
    (.found (bumpClick now l).targetUrl,
     { db with links := db.links.map (fun x =>
         if x.shortCode = code then bumpClick now x else x) })

/-- One inbound request hitting a write-capable or read route, for
stating whole-registry invariants. -/
inductive Op where
  | create (targetUrl : String) (customCode : Option String)
      (gen : Nat → String) (now : Nat)
  | list
  | get (code : String)
  | del (code : String)
  | redirect (code : String) (now : Nat)

/-- The state transition performed by each operation (reads leave the
store untouched). -/
def applyOp (db : Db) : Op → Db
  | .create targetUrl customCode gen now => (createLink db targetUrl customCode gen now).2
  | .list => db
  | .get _ => db
  | .del code => (deleteLink db code).2
  | .redirect code now => (redirectLink db code now).2

/-- A burst of redirect requests on one code, serialized in some order:
each `prisma.link.update` is a single atomic statement, so any
interleaving of the N concurrent handlers executes their updates in some
sequence.  `ts` lists the clock reads of the requests in that order; the
result pairs the ordered responses with the final store. -/
def redirectN (db : Db) (code : String) : List Nat → List RedirectRes × Db
  | [] => ([], db)
  | now :: rest =>
    ((redirectLink db code now).1 ::
       (redirectN (redirectLink db code now).2 code rest).1,
     (redirectN (redirectLink db code now).2 code rest).2)

/-! ## Concrete example states (used by the witness theorems) -/

/-- The record created by the spec's end-to-end example. -/
def exLink : Link :=
  { id := 0, shortCode := "airocks7", targetUrl := "https://example.com/docs",
    totalClicks := 0, createdAt := 5, lastClickedAt := none }

/-- A one-row store holding `exLink`. -/
def exDb : Db := { links := [exLink], nextId := 1 }

/-- A store whose only row carries a syntactically invalid short code
(the store itself never enforces the syntax rule). -/
def dupDb : Db :=
  { links := [{ id := 3, shortCode := "invalid!", targetUrl := "https://t.co/x",
                totalClicks := 2, createdAt := 1, lastClickedAt := some 2 }],
    nextId := 4 }

/-- A store already holding the code `aaaaaa`, to collide with a
constant generator. -/
def collDb : Db :=
  { links := [{ id := 7, shortCode := "aaaaaa", targetUrl := "https://a.io/b",
                totalClicks := 0, createdAt := 3, lastClickedAt := none }],
    nextId := 8 }

/-! ## General lemmas about the matcher and the store -/

/-- `matchRep p lo hi` accepts exactly the strings of length between
`lo` and `hi` all of whose characters satisfy `p`. -/
theorem matchRep_iff (p : Char → Bool) (cs : List Char) (lo hi : Nat) :
    matchRep p lo hi cs = true ↔
      lo ≤ cs.length ∧ cs.length ≤ hi ∧ ∀ c ∈ cs, p c = true := by
  induction cs generalizing lo hi with
  | nil =>
    simp only [matchRep, List.length_nil, beq_iff_eq, List.not_mem_nil]
    constructor
    · rintro rfl; exact ⟨Nat.le_refl 0, Nat.zero_le hi, fun c h => h.elim⟩
    · rintro ⟨h, -, -⟩; exact Nat.le_zero.mp h
  | cons c cs ih =>
    cases hi with
    | zero => simp [matchRep]
    | succ hi =>
      simp only [matchRep, Bool.and_eq_true, ih, List.length_cons, List.mem_cons]
      constructor
      · rintro ⟨hp, hlo, hhi, hall⟩
        refine ⟨by omega, by omega, ?_⟩
        rintro x (rfl | hx)
        · exact hp
        · exact hall x hx
      · rintro ⟨hlo, hhi, hall⟩
        exact ⟨hall c (Or.inl rfl), by omega, by omega, fun x hx => hall x (Or.inr hx)⟩

theorem findCode_cons (l : Link) (ls : List Link) (n : Nat) (c : String) :
    findCode { links := l :: ls, nextId := n } c =
      if l.shortCode = c then some l else findCode { links := ls, nextId := n } c := by
  simp only [findCode, List.find?_cons]
  by_cases h : l.shortCode = c <;> simp [h]

/-- Mapping a `shortCode`-preserving update over the rows commutes with
lookup. -/
theorem findCode_map (f : Link → Link) (ls : List Link) (n m : Nat) (c : String)
    (hf : ∀ l, (f l).shortCode = l.shortCode) :
    findCode { links := ls.map f, nextId := n } c =
      (findCode { links := ls, nextId := m } c).map f := by
  have hpf : ((fun l => decide (l.shortCode = c)) ∘ f) =
      (fun l : Link => decide (l.shortCode = c)) := by
    funext l
    simp [Function.comp, hf]
  simp only [findCode, List.find?_map, hpf]

/-- Deleting the rows of one code does not change the lookup of another. -/
theorem findCode_filter_ne (ls : List Link) (n m : Nat) (c c' : String)
    (hne : c' ≠ c) :
    findCode { links := ls.filter (fun l => !(l.shortCode = c)), nextId := n } c' =
      findCode { links := ls, nextId := m } c' := by
  simp only [findCode, List.find?_filter]
  congr 1
  funext l
  by_cases h : l.shortCode = c'
  · simp [h, hne]
  · simp [h]

/-- After a delete, the deleted code no longer resolves. -/
theorem findCode_filter_self (ls : List Link) (n : Nat) (c : String) :
    findCode { links := ls.filter (fun l => !(l.shortCode = c)), nextId := n } c = none := by
  simp only [findCode, List.find?_eq_none, List.mem_filter]
  rintro l ⟨_, hkeep⟩
  simpa using hkeep

/-- When the code resolves, the redirect answers 302 with the row's
target URL and the new state is the pointwise bump of that row. -/
theorem redirectLink_found (db : Db) (code : String) (now : Nat) (l : Link)
    (h : findCode db code = some l) :
    redirectLink db code now =
      (RedirectRes.found l.targetUrl,
       { db with links := db.links.map (fun x =>
           if x.shortCode = code then bumpClick now x else x) }) := by
  simp [redirectLink, h, bumpClick]

/-- When the code does not resolve, the redirect answers 404 and leaves
the store untouched. -/
theorem redirectLink_notFound (db : Db) (code : String) (now : Nat)
    (h : findCode db code = none) :
    redirectLink db code now = (RedirectRes.notFound, db) := by
  simp [redirectLink, h]

/-- After a successful redirect, the row of the redirected code is its
old row with the counter incremented and the timestamp set. -/
theorem findCode_redirect_self (db : Db) (code : String) (now : Nat) (l : Link)
    (h : findCode db code = some l) :
    findCode (redirectLink db code now).2 code = some (bumpClick now l) := by
  rw [redirectLink_found db code now l h]
  have hpres : ∀ x : Link,
      ((fun x => if x.shortCode = code then bumpClick now x else x) x).shortCode =
        x.shortCode := by
    intro x
    by_cases hx : x.shortCode = code <;> simp [hx, bumpClick]
  rw [show ({ db with links := db.links.map (fun x =>
        if x.shortCode = code then bumpClick now x else x) } : Db) =
      { links := db.links.map (fun x =>
          if x.shortCode = code then bumpClick now x else x), nextId := db.nextId }
    from rfl]
  rw [findCode_map _ _ _ db.nextId _ hpres]
  have h' : findCode { links := db.links, nextId := db.nextId } code = some l := h
  rw [h']
  have hl : l.shortCode = code := by
    have h2 : List.find? (fun x => decide (x.shortCode = code)) db.links = some l := h
    simpa using List.find?_some h2
  simp [hl]

/-- A redirect touches no row of any other code. -/
theorem findCode_redirect_other (db : Db) (code : String) (now : Nat) (c2 : String)
    (hne : c2 ≠ code) :
    findCode (redirectLink db code now).2 c2 = findCode db c2 := by
  rcases hfc : findCode db code with - | l
  · rw [redirectLink_notFound db code now hfc]
  · rw [redirectLink_found db code now l hfc]
    have hpres : ∀ x : Link,
        ((fun x => if x.shortCode = code then bumpClick now x else x) x).shortCode =
          x.shortCode := by
      intro x
      by_cases hx : x.shortCode = code <;> simp [hx, bumpClick]
    rw [show ({ db with links := db.links.map (fun x =>
          if x.shortCode = code then bumpClick now x else x) } : Db) =
        { links := db.links.map (fun x =>
            if x.shortCode = code then bumpClick now x else x), nextId := db.nextId }
      from rfl]
    rw [findCode_map _ _ _ db.nextId _ hpres]
    rcases hfc2 : findCode { links := db.links, nextId := db.nextId } c2 with - | l2
    · rfl
    · have hl2 : l2.shortCode = c2 := by
        have h2 : List.find? (fun x => decide (x.shortCode = c2)) db.links = some l2 := hfc2
        simpa using List.find?_some h2
      simp [hl2, hne]

/-! ## The claims -/

/-- C1: for every `GET /:code`: if a link with that `shortCode` exists, the
handler increments its `totalClicks` by exactly 1 and sets its
`lastClickedAt` to the current time as one update of that row, and responds
302 with `Location` equal to that record's `targetUrl`, leaving every other
code's lookup unchanged; if no such link exists, it responds 404 and the
store is left exactly as it was. -/
theorem redirect_contract (db : Db) (code : String) (now : Nat) :
    (∀ l, findCode db code = some l →
      (redirectLink db code now).1 = RedirectRes.found l.targetUrl ∧
      ((redirectLink db code now).1).status = 302 ∧
      findCode (redirectLink db code now).2 code =
        some { l with totalClicks := l.totalClicks + 1, lastClickedAt := some now } ∧
      ∀ c2, c2 ≠ code → findCode (redirectLink db code now).2 c2 = findCode db c2) ∧
    (findCode db code = none →
      ((redirectLink db code now).1).status = 404 ∧
      (redirectLink db code now).2 = db) := by
  constructor
  · intro l h
    refine ⟨?_, ?_, ?_, ?_⟩
    · rw [redirectLink_found db code now l h]
    · rw [redirectLink_found db code now l h]
      rfl
    · exact findCode_redirect_self db code now l h
    · intro c2 hne
      exact findCode_redirect_other db code now c2 hne
  · intro h
    rw [redirectLink_notFound db code now h]
    exact ⟨rfl, rfl⟩

/-- The redirect contract evaluated on the example store: hitting
`airocks7` gives a 302 to its target and bumps the row; hitting a missing
code leaves the store unchanged. -/
theorem redirect_contract_witness :
    (redirectLink exDb "airocks7" 9).1 = RedirectRes.found "https://example.com/docs" ∧
    findCode (redirectLink exDb "airocks7" 9).2 "airocks7" =
      some { exLink with totalClicks := 1, lastClickedAt := some 9 } ∧
    (redirectLink exDb "nonexist" 9).2 = exDb := by
  have h1 := (redirect_contract exDb "airocks7" 9).1 exLink (by decide)
  have h2 := (redirect_contract exDb "nonexist" 9).2 (by decide)
  exact ⟨h1.1, h1.2.2.1, h2.2⟩

/-- C6: `validateCode` (the `CODE_REGEX` test of `index.js`) returns true
iff the string has 6 to 8 characters, each in `[A-Za-z0-9]`; any other
character anywhere, or any length outside 6–8, makes it return false. -/
theorem validateCode_iff_alnum_6_8 (s : String) :
    codeRegexTest s = true ↔
      6 ≤ s.toList.length ∧ s.toList.length ≤ 8 ∧
      ∀ c ∈ s.toList,
        ('A' ≤ c ∧ c ≤ 'Z') ∨ ('a' ≤ c ∧ c ≤ 'z') ∨ ('0' ≤ c ∧ c ≤ '9') := by
  rw [codeRegexTest, matchRep_iff]
  simp [isAlnumChar, or_assoc]

/-- The `validateCode` characterization applied at the spec's example
custom code and its example rejected code. -/
theorem validateCode_iff_witness :
    codeRegexTest "airocks7" = true ∧ codeRegexTest "invalid!" = false := by
  constructor
  · exact (validateCode_iff_alnum_6_8 "airocks7").mpr (by decide)
  · by_contra h
    simp only [Bool.not_eq_false] at h
    have := (validateCode_iff_alnum_6_8 "invalid!").mp h
    revert this
    decide

/-- C9: `GET /api/links` returns all current records (a permutation of
the store's rows), ordered by `createdAt` descending, and the empty
sequence when the store holds no records. -/
theorem list_all_ordered (db : Db) :
    (listLinks db).Perm db.links ∧
    List.Sorted (fun a b => b.createdAt ≤ a.createdAt) (listLinks db) ∧
    (db.links = [] → listLinks db = []) := by
  refine ⟨List.perm_insertionSort newerFirst db.links,
    List.sorted_insertionSort newerFirst db.links, ?_⟩
  intro h
  rw [listLinks, h]
  rfl

/-- The list contract on the empty store yields the empty sequence. -/
theorem list_all_ordered_witness : listLinks { links := [], nextId := 0 } = [] :=
  (list_all_ordered { links := [], nextId := 0 }).2.2 rfl

/-- C10: an empty-string `customCode` is falsy in JavaScript, so the
create handler takes the auto-generation path exactly as if the field
were absent — it never answers 400 `InvalidCode` for it. -/
theorem empty_customCode_as_absent (db : Db) (targetUrl : String)
    (gen : Nat → String) (now : Nat) :
    createLink db targetUrl (some "") gen now = createLink db targetUrl none gen now ∧
    (createLink db targetUrl (some "") gen now).1 ≠ CreateRes.invalidCode := by
  constructor
  · rfl
  · rw [createLink]
    split
    · simp
    · split
      · simp [truthy] at *
      · rcases h : firstFree db gen with - | code
        · simp
        · rcases h2 : findCode db code with - | l <;> simp [insertLink, h2]

/-- C2: a burst of N concurrent redirects on an existing code, executed
in any serialization order of their atomic updates, answers every one of
the N requests with a 302 to the record's `targetUrl` and leaves the
final `totalClicks` equal to the click count prior to the burst plus N —
no lost updates. -/
theorem concurrent_redirects_count (db : Db) (code : String) (l : Link)
    (ts : List Nat) (h : findCode db code = some l) :
    (redirectN db code ts).1 = ts.map (fun _ => RedirectRes.found l.targetUrl) ∧
    (∀ r ∈ (redirectN db code ts).1, r.status = 302) ∧
    ∃ l', findCode (redirectN db code ts).2 code = some l' ∧
      l'.totalClicks = l.totalClicks + ts.length ∧
      l'.targetUrl = l.targetUrl := by
  induction ts generalizing db l with
  | nil =>
    exact ⟨rfl, by simp [redirectN], l, h, rfl, rfl⟩
  | cons now rest ih =>
    have hfst : (redirectLink db code now).1 = RedirectRes.found l.targetUrl := by
      rw [redirectLink_found db code now l h]
    have hnext : findCode (redirectLink db code now).2 code = some (bumpClick now l) :=
      findCode_redirect_self db code now l h
    obtain ⟨h1, h2, l', hl', hcount, hurl⟩ := ih (redirectLink db code now).2 (bumpClick now l) hnext
    refine ⟨?_, ?_, l', hl', ?_, ?_⟩
    · simp only [redirectN, hfst, h1, List.map_cons]
      simp [bumpClick]
    · intro r hr
      simp only [redirectN, List.mem_cons] at hr
      rcases hr with rfl | hr
      · rw [hfst]
        rfl
      · exact h2 r hr
    · simp only [bumpClick] at hcount
      simp only [redirectN, List.length_cons]
      omega
    · simpa [bumpClick, redirectN] using hurl

/-- Three serialized redirects on the example store: three 302 responses
to the stored target and a final count of exactly 3. -/
theorem concurrent_redirects_count_witness :
    (redirectN exDb "airocks7" [1, 2, 3]).1 =
      [RedirectRes.found "https://example.com/docs",
       RedirectRes.found "https://example.com/docs",
       RedirectRes.found "https://example.com/docs"] ∧
    ∃ l', findCode (redirectN exDb "airocks7" [1, 2, 3]).2 "airocks7" = some l' ∧
      l'.totalClicks = exLink.totalClicks + 3 ∧
      l'.targetUrl = "https://example.com/docs" := by
  have h := concurrent_redirects_count exDb "airocks7" exLink [1, 2, 3] (by decide)
  exact ⟨h.1, h.2.2⟩

/-- C5: when the supplied `customCode` is both syntactically invalid and
already in use, the create handler answers 400 `InvalidCode` — the syntax
check runs before any uniqueness check, so it is never 409 — and the
store is left exactly as it was. -/
theorem invalid_duplicate_custom_code (db : Db) (targetUrl cc : String)
    (gen : Nat → String) (now : Nat)
    (hurl : urlRegexTest targetUrl = true)
    (hne : cc ≠ "")
    (hbad : codeRegexTest cc = false)
    (_hdup : (findCode db cc).isSome = true) :
    createLink db targetUrl (some cc) gen now = (CreateRes.invalidCode, db) ∧
    CreateRes.invalidCode.status = 400 ∧
    CreateRes.invalidCode ≠ CreateRes.conflict := by
  have htne : targetUrl ≠ "" := by
    intro h0
    rw [h0] at hurl
    exact absurd hurl (by decide)
  refine ⟨?_, rfl, by simp⟩
  rw [createLink]
  simp [truthy, htne, hurl, hne, hbad]

/-- The invalid-and-duplicate case run on a store already holding the
row `invalid!`: the handler answers `InvalidCode` and the store is
untouched. -/
theorem invalid_duplicate_custom_code_witness :
    createLink dupDb "https://test.com" (some "invalid!") (fun _ => "abc123") 9 =
      (CreateRes.invalidCode, dupDb) :=
  (invalid_duplicate_custom_code dupDb "https://test.com" "invalid!"
    (fun _ => "abc123") 9 (by decide) (by decide) (by decide) (by decide)).1

/-- C7: with no `customCode`, the create handler consults only the first
5 generated candidates (two candidate streams agreeing on indices 0–4
yield identical outcomes), and when all 5 candidates are already in use
it answers 500 `GenerationExhausted` and the store is left exactly as it
was. -/
theorem generation_exhausted (db : Db) (targetUrl : String)
    (gen gen' : Nat → String) (now : Nat)
    (hurl : urlRegexTest targetUrl = true)
    (hall : ∀ i, i < 5 → (findCode db (gen i)).isSome = true)
    (hagree : ∀ i, i < 5 → gen' i = gen i) :
    createLink db targetUrl none gen now = (CreateRes.generationExhausted, db) ∧
    CreateRes.generationExhausted.status = 500 ∧
    createLink db targetUrl none gen' now = createLink db targetUrl none gen now := by
  have htne : targetUrl ≠ "" := by
    intro h0
    rw [h0] at hurl
    exact absurd hurl (by decide)
  have hff : firstFree db gen = none := by
    rw [firstFree, List.find?_eq_none]
    intro x hx
    simp only [List.mem_map, List.mem_range] at hx
    obtain ⟨i, hi, rfl⟩ := hx
    have hs := hall i hi
    rcases ho : findCode db (gen i) with - | l
    · rw [ho] at hs
      exact absurd hs (by decide)
    · simp [ho]
  have hmap : (List.range 5).map gen' = (List.range 5).map gen := by
    apply List.map_congr_left
    intro i hi
    exact hagree i (List.mem_range.mp hi)
  have hff' : firstFree db gen' = firstFree db gen := by
    rw [firstFree, firstFree, hmap]
  have hmain : createLink db targetUrl none gen now = (CreateRes.generationExhausted, db) := by
    rw [createLink]
    simp [truthy, htne, hurl, hff]
  refine ⟨hmain, rfl, ?_⟩
  rw [createLink, createLink, hff']

/-- Exhaustion observed concretely: a constant generator colliding with
the store five times leaves the store unchanged and answers 500, and a
stream differing only from index 5 on behaves identically. -/
theorem generation_exhausted_witness :
    createLink collDb "https://test.com" none (fun _ => "aaaaaa") 9 =
      (CreateRes.generationExhausted, collDb) ∧
    createLink collDb "https://test.com" none
      (fun i => if i < 5 then "aaaaaa" else "zzzzzz") 9 =
      createLink collDb "https://test.com" none (fun _ => "aaaaaa") 9 := by
  have h := generation_exhausted collDb "https://test.com"
    (fun _ => "aaaaaa") (fun i => if i < 5 then "aaaaaa" else "zzzzzz") 9
    (by decide)
    (fun i _ => by change (findCode collDb "aaaaaa").isSome = true; decide)
    (fun i hi => by simp [hi])
  exact ⟨h.1, h.2.2⟩

/-- The create handler either leaves the store untouched or prepends one
fresh row (whose code did not resolve before) with `totalClicks = 0`. -/
theorem createLink_snd_cases (db : Db) (tu : String) (cc : Option String)
    (gen : Nat → String) (now : Nat) :
    (createLink db tu cc gen now).2 = db ∨
    ∃ code, findCode db code = none ∧
      (createLink db tu cc gen now).2 =
        { links := { id := db.nextId, shortCode := code, targetUrl := tu,
                     totalClicks := 0, createdAt := now,
                     lastClickedAt := none } :: db.links,
          nextId := db.nextId + 1 } := by
  have hins : ∀ code, (insertLink db code tu now).2 = db ∨
      (findCode db code = none ∧
        (insertLink db code tu now).2 =
          { links := { id := db.nextId, shortCode := code, targetUrl := tu,
                       totalClicks := 0, createdAt := now,
                       lastClickedAt := none } :: db.links,
            nextId := db.nextId + 1 }) := by
    intro code
    rcases hfc : findCode db code with - | l
    · exact Or.inr ⟨rfl, by simp [insertLink, hfc]⟩
    · exact Or.inl (by simp [insertLink, hfc])
  rw [createLink]
  split
  · exact Or.inl rfl
  · split
    · split
      · exact Or.inl rfl
      · rcases hins (cc.getD "") with h | ⟨h1, h2⟩
        · exact Or.inl h
        · exact Or.inr ⟨cc.getD "", h1, h2⟩
    · rcases hgen : firstFree db gen with - | code
      · exact Or.inl rfl
      · rcases hins code with h | ⟨h1, h2⟩
        · exact Or.inl h
        · exact Or.inr ⟨code, h1, h2⟩

/-- The only row the create handler ever inserts starts with
`totalClicks = 0`. -/
theorem createLink_created_clicks (db : Db) (tu : String) (cc : Option String)
    (gen : Nat → String) (now : Nat) (nl : Link) (db2 : Db)
    (h : createLink db tu cc gen now = (CreateRes.created nl, db2)) :
    nl.totalClicks = 0 ∧ nl.lastClickedAt = none := by
  have hins : ∀ code, insertLink db code tu now = (CreateRes.created nl, db2) →
      nl.totalClicks = 0 ∧ nl.lastClickedAt = none := by
    intro code hi
    rcases hfc : findCode db code with - | l
    · simp only [insertLink, hfc] at hi
      obtain ⟨h1, -⟩ := Prod.mk.injEq .. ▸ hi
      have := congrArg CreateRes.status h1
      cases h1
      exact ⟨rfl, rfl⟩
    · simp [insertLink, hfc] at hi
  rw [createLink] at h
  split at h
  · cases h
  · split at h
    · split at h
      · cases h
      · exact hins (cc.getD "") h
    · rcases hgen : firstFree db gen with - | code <;> rw [hgen] at h
      · cases h
      · exact hins code h

/-- Across any single operation, an existing row either survives
unchanged or — only for a redirect of its own code — is bumped. -/
theorem findCode_applyOp (db : Db) (op : Op) (c : String) (l l' : Link)
    (h : findCode db c = some l) (h' : findCode (applyOp db op) c = some l') :
    l' = l ∨ ∃ now, op = Op.redirect c now ∧ l' = bumpClick now l := by
  cases op with
  | create tu cc gen now =>
    left
    rcases createLink_snd_cases db tu cc gen now with heq | ⟨code, hfree, heq⟩
    · rw [applyOp, heq, h] at h'
      injection h' with h''
      exact h''.symm
    · rw [applyOp, heq] at h'
      have hcne : code ≠ c := by
        rintro rfl
        rw [h] at hfree
        cases hfree
      rw [findCode_cons] at h'
      simp only [hcne, if_false] at h'
      have hdb : findCode { links := db.links, nextId := db.nextId + 1 } c = some l := h
      rw [hdb] at h'
      injection h' with h''
      exact h''.symm
  | list =>
    left
    rw [applyOp] at h'
    rw [h] at h'
    injection h' with h''
    exact h''.symm
  | get code =>
    left
    rw [applyOp] at h'
    rw [h] at h'
    injection h' with h''
    exact h''.symm
  | del code =>
    left
    rw [applyOp, deleteLink] at h'
    by_cases hc : c = code
    · subst hc
      rw [h] at h'
      simp only at h'
      rw [show ({ db with links := db.links.filter (fun l => !(l.shortCode = c)) } : Db) =
          { links := db.links.filter (fun l => !(l.shortCode = c)), nextId := db.nextId }
        from rfl] at h'
      rw [findCode_filter_self] at h'
      cases h'
    · rcases hfc : findCode db code with - | l2 <;> rw [hfc] at h'
      · simp only at h'
        rw [h] at h'
        injection h' with h''
        exact h''.symm
      · simp only at h'
        rw [show ({ db with links := db.links.filter (fun l => !(l.shortCode = code)) } : Db) =
            { links := db.links.filter (fun l => !(l.shortCode = code)), nextId := db.nextId }
          from rfl] at h'
        rw [findCode_filter_ne _ _ db.nextId _ _ hc] at h'
        have hdb : findCode { links := db.links, nextId := db.nextId } c = some l := h
        rw [hdb] at h'
        injection h' with h''
        exact h''.symm
  | redirect code now =>
    by_cases hc : c = code
    · subst hc
      right
      refine ⟨now, rfl, ?_⟩
      rw [applyOp, findCode_redirect_self db c now l h] at h'
      injection h' with h''
      exact h''.symm
    · left
      rw [applyOp, findCode_redirect_other db code now c hc, h] at h'
      injection h' with h''
      exact h''.symm

/-- C8: across every operation of the registry, an existing row's
`totalClicks` never decreases; it is mutated only by a redirect of its
own code, and such a mutation adds exactly 1 and sets `lastClickedAt` to
that redirect's time in the same row update; the row a create inserts
starts at `totalClicks = 0` with no click timestamp. -/
theorem totalClicks_invariant (db : Db) (op : Op) (c : String) (l l' : Link)
    (h : findCode db c = some l) (h' : findCode (applyOp db op) c = some l') :
    l.totalClicks ≤ l'.totalClicks ∧
    ((∀ now, op ≠ Op.redirect c now) → l' = l) ∧
    (∀ now, op = Op.redirect c now →
      l'.totalClicks = l.totalClicks + 1 ∧ l'.lastClickedAt = some now) ∧
    (∀ tu cc gen now nl db2,
      createLink db tu cc gen now = (CreateRes.created nl, db2) →
      nl.totalClicks = 0 ∧ nl.lastClickedAt = none) := by
  have hd := findCode_applyOp db op c l l' h h'
  refine ⟨?_, ?_, ?_, ?_⟩
  · rcases hd with rfl | ⟨now, -, rfl⟩
    · exact Nat.le_refl _
    · exact Nat.le_succ _
  · intro hnr
    rcases hd with rfl | ⟨now, hop, -⟩
    · rfl
    · exact absurd hop (hnr now)
  · intro now hop
    subst hop
    rw [applyOp, findCode_redirect_self db c now l h] at h'
    injection h' with h''
    rw [← h'']
    exact ⟨rfl, rfl⟩
  · intro tu cc gen now nl db2 hcr
    exact createLink_created_clicks db tu cc gen now nl db2 hcr

/-- The invariant evaluated on the example store under a redirect of its
own code: the count goes from 0 to exactly 1 with the timestamp set. -/
theorem totalClicks_invariant_witness :
    exLink.totalClicks ≤
      ({ exLink with totalClicks := 1, lastClickedAt := some 9 } : Link).totalClicks ∧
    ({ exLink with totalClicks := 1, lastClickedAt := some 9 } : Link).totalClicks =
      exLink.totalClicks + 1 := by
  have h := totalClicks_invariant exDb (Op.redirect "airocks7" 9) "airocks7" exLink
    { exLink with totalClicks := 1, lastClickedAt := some 9 } (by decide) (by decide)
  exact ⟨h.1, (h.2.2.1 9 rfl).1⟩

/-- Characters surviving a case-insensitive literal chop come from the
input. -/
theorem chopCI_mem (ps : List Char) : ∀ cs rest, chopCI ps cs = some rest →
    ∀ x ∈ rest, x ∈ cs := by
  induction ps with
  | nil =>
    intro cs rest h x hx
    simp only [chopCI] at h
    injection h with h'
    rw [← h'] at hx
    exact hx
  | cons p ps ih =>
    intro cs rest h x hx
    cases cs with
    | nil =>
      simp only [chopCI] at h
      cases h
    | cons c cs' =>
      simp only [chopCI] at h
      split at h
      · exact List.mem_cons_of_mem c (ih cs' rest h x hx)
      · cases h

/-- Characters after the scheme come from the input string. -/
theorem chopScheme_mem (cs rest : List Char) (h : chopScheme cs = some rest) :
    ∀ x ∈ rest, x ∈ cs := by
  rw [chopScheme] at h
  rcases h8 : chopCI "https://".toList cs with - | r8 <;> rw [h8] at h
  · exact chopCI_mem _ cs rest h
  · injection h with h'
    subst h'
    exact chopCI_mem _ cs _ h8

/-- Every LineTerminator is JavaScript whitespace. -/
theorem isJsSpace_of_lineTerm (c : Char) (h : isLineTerm c = true) :
    isJsSpace c = true := by
  rw [isLineTerm] at h
  simp only [Bool.or_eq_true, decide_eq_true_eq, or_assoc] at h
  rcases h with h | h | h | h <;> subst h <;> decide

/-- Sufficient condition for `URL_REGEX` acceptance: a scheme followed
by at least two characters, no whitespace anywhere, and a first
post-scheme character outside `$ . ? #`. -/
theorem urlRegexTest_of_scheme (s : String) (r1 r2 : Char) (rest : List Char)
    (hchop : chopScheme s.toList = some (r1 :: r2 :: rest))
    (hws : ∀ ch ∈ s.toList, isJsSpace ch = false)
    (h1 : r1 ≠ '$' ∧ r1 ≠ '.' ∧ r1 ≠ '?' ∧ r1 ≠ '#') :
    urlRegexTest s = true := by
  obtain ⟨ha, hb, hc, hd⟩ := h1
  have hmem := chopScheme_mem s.toList _ hchop
  have hr1 : isJsSpace r1 = false := hws r1 (hmem r1 (by simp))
  have hr2 : isJsSpace r2 = false := hws r2 (hmem r2 (by simp))
  have hr2lt : isLineTerm r2 = false := by
    cases hlt : isLineTerm r2 with
    | false => rfl
    | true => rw [isJsSpace_of_lineTerm r2 hlt] at hr2; cases hr2
  have hcs : ∀ ch ∈ rest, isJsSpace ch = false := fun ch hch =>
    hws ch (hmem ch (by simp [hch]))
  simp only [urlRegexTest, hchop]
  simp [hr1, hr2lt, ha, hb, hc, hd, List.all_eq_true]
  exact hcs

/-- C4 (amended): the create handler answers 400 `InvalidTarget` exactly
when `targetUrl` fails `URL_REGEX` (and then the store is unchanged);
the regex accepts every string that has an `http://` or `https://`
prefix (case-insensitively), no embedded whitespace, at least two
characters after the prefix, and a first post-prefix character outside
`$ . ? #` — not, as the claim put it, every prefix-plus-no-whitespace
string. -/
theorem invalid_target_characterization (db : Db) (targetUrl : String)
    (customCode : Option String) (gen : Nat → String) (now : Nat) :
    ((createLink db targetUrl customCode gen now).1 = CreateRes.invalidTarget ↔
      urlRegexTest targetUrl = false) ∧
    (urlRegexTest targetUrl = false →
      createLink db targetUrl customCode gen now = (CreateRes.invalidTarget, db)) ∧
    (∀ r1 r2 rest, chopScheme targetUrl.toList = some (r1 :: r2 :: rest) →
      (∀ ch ∈ targetUrl.toList, isJsSpace ch = false) →
      r1 ≠ '$' → r1 ≠ '.' → r1 ≠ '?' → r1 ≠ '#' →
      urlRegexTest targetUrl = true) := by
  have hres : urlRegexTest targetUrl = false →
      createLink db targetUrl customCode gen now = (CreateRes.invalidTarget, db) := by
    intro hu
    simp [createLink, hu]
  have hne : urlRegexTest targetUrl = true →
      (createLink db targetUrl customCode gen now).1 ≠ CreateRes.invalidTarget := by
    intro hu
    have htne : targetUrl ≠ "" := by
      intro h0
      rw [h0] at hu
      exact absurd hu (by decide)
    have hcond : (!(truthy (some targetUrl)) || !(urlRegexTest targetUrl)) = false := by
      simp [truthy, htne, hu]
    simp only [createLink, hcond, Bool.false_eq_true, if_false]
    split
    · split
      · simp
      · rcases h2 : findCode db (customCode.getD "") with - | l <;>
          simp [insertLink, h2]
    · rcases h3 : firstFree db gen with - | code
      · simp
      · rcases h2 : findCode db code with - | l <;> simp [insertLink, h2]
  refine ⟨⟨?_, ?_⟩, hres, fun r1 r2 rest hchop hws ha hb hc hd =>
    urlRegexTest_of_scheme targetUrl r1 r2 rest hchop hws ⟨ha, hb, hc, hd⟩⟩
  · intro hinv
    cases hu : urlRegexTest targetUrl with
    | false => rfl
    | true => exact absurd hinv (hne hu)
  · intro hu
    rw [hres hu]

/-- C4 counterexample: `"http://a"` starts with `http://` and has no
embedded whitespace, yet `URL_REGEX` rejects it and the create handler
answers 400 `InvalidTarget` — not every prefix-plus-no-whitespace string
is accepted. -/
theorem http_one_char_rejected :
    (chopScheme ("http://a").toList).isSome = true ∧
    (("http://a").toList.all fun ch => !(isJsSpace ch)) = true ∧
    urlRegexTest "http://a" = false ∧
    createLink { links := [], nextId := 0 } "http://a" none (fun _ => "abc123") 0 =
      (CreateRes.invalidTarget, { links := [], nextId := 0 }) ∧
    CreateRes.invalidTarget.status = 400 := by
  exact ⟨by decide, by decide, by decide, by decide, rfl⟩

/-- The amended URL validation at work: a well-formed target is never
`InvalidTarget`; a malformed one is rejected with the store untouched. -/
theorem invalid_target_characterization_witness :
    (createLink { links := [], nextId := 0 } "https://example.com/docs" none
        (fun _ => "abc123") 0).1 ≠ CreateRes.invalidTarget ∧
    createLink { links := [], nextId := 0 } "http:/broken" none (fun _ => "abc123") 0 =
      (CreateRes.invalidTarget, { links := [], nextId := 0 }) := by
  constructor
  · intro hcontra
    have h := (invalid_target_characterization { links := [], nextId := 0 }
      "https://example.com/docs" none (fun _ => "abc123") 0).1.mp hcontra
    exact absurd h (by decide)
  · exact (invalid_target_characterization { links := [], nextId := 0 }
      "http:/broken" none (fun _ => "abc123") 0).2.1 (by decide)

/-- C3: the generator breaks the claimed length contract.  For the byte
draw `0xFF × 6`, base64url yields `________`, the
`replace(/[-_]/g, '')` strips all of it, and `generateRandomCode`
returns the empty string — length 0 instead of the drawn 6, rejected by
`CODE_REGEX` — so the result length is not always in {6, 7, 8}. -/
theorem generateRandomCode_can_fall_short :
    base64url [255, 255, 255, 255, 255, 255] =
      ['_', '_', '_', '_', '_', '_', '_', '_'] ∧
    generateRandomCode 6 [255, 255, 255, 255, 255, 255] = "" ∧
    (generateRandomCode 6 [255, 255, 255, 255, 255, 255]).toList.length = 0 ∧
    codeRegexTest (generateRandomCode 6 [255, 255, 255, 255, 255, 255]) = false := by
  exact ⟨by decide, rfl, rfl, rfl⟩

end TinyLink
